import Mathlib

/-!
Shallow embedding of the PortfolioChecker allocation/rebalancing engine
(`src/pages/show.py`) over exact rationals, together with theorems settling
the specification claims.  Python dicts are modelled as association lists
with insertion order preserved (Python 3.7+ dict semantics); float
arithmetic is modelled by `ℚ`; Python `round(x, 2)` (banker's rounding) is
modelled exactly by `pyRound2`; Python `//` (floor division) by `Int.floor`.
-/

namespace PortfolioChecker

/-- First value bound to key `k` in an association list (Python `d[k]` /
`d.get(k)`); Python dicts have unique keys, which the theorems assume via
`Nodup` hypotheses where it matters. -/
def lookup? {α : Type} (l : List (String × α)) (k : String) : Option α :=
  match l with
  | [] => none
  | p :: rest => if p.1 = k then some p.2 else lookup? rest k

/-- One major category's stored data: its target fraction (`"ratio"` in the
source) and its ordered subcategory table (`"subcategories"`). -/
structure MajorData where
  ratioVal : ℚ
  subcategories : List (String × ℚ)
deriving DecidableEq

/-- The category hierarchy: ordered mapping major name → `MajorData`. -/
abbrev Categories : Type := List (String × MajorData)

/-- `flatten_categories` from the source: target fractions per major and per
fully-qualified `major-minor` subcategory key, in declaration order. -/
def flatten_categories (cats : Categories) :
    List (String × ℚ) × List (String × ℚ) :=
  (cats.map (fun p => (p.1, p.2.ratioVal)),
   cats.flatMap (fun p =>
     p.2.subcategories.map (fun q => (p.1 ++ "-" ++ q.1, q.2))))

/-- `sum([data["ratio"] for data in categories.values()])`. -/
def totalMajor (cats : Categories) : ℚ :=
  (cats.map (fun p => p.2.ratioVal)).sum

/-- `sum(major_data["subcategories"].values())`. -/
def minorTotal (md : MajorData) : ℚ :=
  (md.subcategories.map (fun q => q.2)).sum

/-- The diagnostic carried by the `st.error` call in
`save_categories_to_db`: either the major-ratio sum that broke Invariant A,
or the offending major's name, its ratio, and its minor-ratio sum for
Invariant B. -/
inductive SaveError
  | majorSum (total : ℚ)
  | minorSum (major : String) (r : ℚ) (total : ℚ)
deriving DecidableEq

/-- Whether one major violates Invariant B, exactly as tested in the source:
`not (0.99 * ratio <= total_minor <= 1.01 * ratio)`. -/
def majorBad (p : String × MajorData) : Bool :=
  !(decide (0.99 * p.2.ratioVal ≤ minorTotal p.2) &&
    decide (minorTotal p.2 ≤ 1.01 * p.2.ratioVal))

/-- `save_categories_to_db` (src/pages/show.py:101-129).  `stored` is the
hierarchy currently in the database; the result is (return value, stored
hierarchy afterwards, diagnostic of the first violated invariant if any).
Invariant A is checked first, then Invariant B major by major in
declaration order, returning on the first failure; only a fully valid
hierarchy is committed. -/
def save_categories_to_db (cats stored : Categories) :
    Bool × Categories × Option SaveError :=
  if 0.99 ≤ totalMajor cats ∧ totalMajor cats ≤ 1.01 then
    match cats.find? majorBad with
    | some p => (false, stored, some (.minorSum p.1 p.2.ratioVal (minorTotal p.2)))
    | none => (true, cats, none)
  else (false, stored, some (.majorSum (totalMajor cats)))

/-- What it means for a diagnostic to cite the exact computed sum of the
first violated invariant of `cats` (Invariant A before Invariant B,
Invariant B in major declaration order). -/
def citesFirstViolation (cats : Categories) : SaveError → Prop
  | .majorSum t =>
      t = totalMajor cats ∧ ¬(0.99 ≤ t ∧ t ≤ 1.01)
  | .minorSum m r t =>
      (0.99 ≤ totalMajor cats ∧ totalMajor cats ≤ 1.01) ∧
      ∃ l₁ md l₂, cats = l₁ ++ (m, md) :: l₂ ∧
        md.ratioVal = r ∧ minorTotal md = t ∧
        ¬(0.99 * r ≤ t ∧ t ≤ 1.01 * r) ∧
        ∀ p ∈ l₁, 0.99 * p.2.ratioVal ≤ minorTotal p.2 ∧
          minorTotal p.2 ≤ 1.01 * p.2.ratioVal

/-- Python `round` to an integer: round half to even (banker's rounding),
on an exact rational. -/
def roundHalfEven (x : ℚ) : ℤ :=
  if x - Int.floor x < 1/2 then Int.floor x
  else if 1/2 < x - Int.floor x then Int.floor x + 1
  else if Int.floor x % 2 = 0 then Int.floor x else Int.floor x + 1

/-- Python `round(x, 2)`. -/
def pyRound2 (x : ℚ) : ℚ :=
  (roundHalfEven (x * 100) : ℚ) / 100

/-- One holding's stored record (`assets_info[name]` in the source). -/
structure AssetInfo where
  code : String
  type : String
  amount : ℚ
  category : String
  remark : String
deriving DecidableEq

/-- The holdings table `assets_info`: ordered mapping name → record. -/
abbrev Assets : Type := List (String × AssetInfo)

/-- Python `{**a, **b}`: keys of `a` in order with values overridden by `b`
where present, followed by the keys of `b` that are new. -/
def dictMerge (a b : Assets) : Assets :=
  a.map (fun p => (p.1, (lookup? b p.1).getD p.2)) ++
    b.filter (fun p => (lookup? a p.1).isNone)

/-- `add_asset_to_db` (src/pages/show.py:158-171): merges the new record
over the current `assets_info` and reports success.  `current` is the
stored holdings table; the result is (return value, stored table
afterwards). -/
def add_asset_to_db (asset_data current : Assets) : Bool × Assets :=
  (true, dictMerge current asset_data)

/-- `delete_asset_from_db` (src/pages/show.py:191-208): deletes the key if
present (Python `del current_assets[asset_name]`) and writes back; reports
failure and writes nothing when the key is absent. -/
def delete_asset_from_db (asset_name : String) (current : Assets) :
    Bool × Assets :=
  if (lookup? current asset_name).isSome then
    (true, current.filter (fun p => !(p.1 == asset_name)))
  else (false, current)

/-- Whether the price-fetch loop attempts a lookup for this record: only
`fund` and `etf` types are fetched; `cash` is skipped. -/
def attemptsLookup (i : AssetInfo) : Bool :=
  i.type == "fund" || i.type == "etf"

/-- The dictionary `A` of fetched prices (src/pages/show.py:514-525).  The
external price source (`get_fund_price` / `get_price` from `data_utils`,
not under src/) is modelled from the spec: `get_price(code) → decimal |
Err(NotAvailable)`, i.e. a function `String → Option ℚ`; `none` is the
exception path, on which the loop emits a warning and stores nothing. -/
def fetchA (assets : Assets) (src : String → Option ℚ) : List (String × ℚ) :=
  assets.filterMap (fun p =>
    if attemptsLookup p.2 then (src p.2.code).map (fun pr => (p.1, pr))
    else none)

/-- The names for which the fetch loop emitted a non-fatal
`st.warning` (lookup attempted and failed). -/
def fetchWarnings (assets : Assets) (src : String → Option ℚ) : List String :=
  assets.filterMap (fun p =>
    if attemptsLookup p.2 && (src p.2.code).isNone then some p.1 else none)

/-- One holding's market value (src/pages/show.py:528-539): `cash` is
valued at its quantity without consulting `A`; anything else is
quantity × latest price when `A` has data for it, else `0`. -/
def current_value (a : List (String × ℚ)) (name : String) (i : AssetInfo) : ℚ :=
  if i.type = "cash" then i.amount
  else
    match lookup? a name with
    | some pr => i.amount * pr
    | none => 0

/-- The `current_values` dictionary: every holding valued. -/
def current_values (assets : Assets) (src : String → Option ℚ) :
    List (String × ℚ) :=
  assets.map (fun p => (p.1, current_value (fetchA assets src) p.1 p.2))

/-- A single holding's value as a function of its own record and its own
lookup result only (used to state that failures are isolated per
holding). -/
def pointValue (i : AssetInfo) (res : Option ℚ) : ℚ :=
  if i.type = "cash" then i.amount
  else
    match res with
    | some pr => i.amount * pr
    | none => 0

/-- `total_value = df["现有价值"].sum()`. -/
def total_value (assets : Assets) (src : String → Option ℚ) : ℚ :=
  ((current_values assets src).map (fun p => p.2)).sum

/-- `sub_summary = df.groupby("分类")["现有价值"].sum()`, read at key `k`
(`sub_summary.get(k, 0)`: an absent group is `0`, the empty sum). -/
def sub_summary (assets : Assets) (src : String → Option ℚ) (k : String) : ℚ :=
  ((assets.filter (fun p => p.2.category == k)).map
    (fun p => current_value (fetchA assets src) p.1 p.2)).sum

/-- Python `s.split("-")[0]`: the major-category component of a
fully-qualified `major-minor` key. -/
def majorOf (s : String) : String :=
  (s.splitOn "-").headD s

/-- `cls_summary = df.groupby("大类")["现有价值"].sum()`, read at key `m`. -/
def cls_summary (assets : Assets) (src : String → Option ℚ) (m : String) : ℚ :=
  ((assets.filter (fun p => majorOf p.2.category == m)).map
    (fun p => current_value (fetchA assets src) p.1 p.2)).sum

/-- `sub_diff[k] = actual_value - target_value` where
`target_value = total_value * tar` (src/pages/show.py:563-567); the major
level (`cls_diff`, lines 573-577) computes the same formula. -/
def sub_diff (total tar actual : ℚ) : ℚ :=
  actual - total * tar

/-- `sub_diff_ratio[k] = sub_diff[k] / target_value * 100 if target_value
!= 0 else 0` — the explicit division-by-zero guard of the analyzer, used
verbatim at both hierarchy levels. -/
def subDiffPct (total tar actual : ℚ) : ℚ :=
  if total * tar ≠ 0 then sub_diff total tar actual / (total * tar) * 100
  else 0

/-- The subcategory deviation table, one entry per configured key of
`target_ratio_sub` in declaration order. -/
def sub_diff_pct_table (subTargets : List (String × ℚ)) (assets : Assets)
    (src : String → Option ℚ) : List (String × ℚ) :=
  subTargets.map (fun p =>
    (p.1, subDiffPct (total_value assets src) p.2 (sub_summary assets src p.1)))

/-- The major-level deviation table over `target_ratio`. -/
def cls_diff_pct_table (majorTargets : List (String × ℚ)) (assets : Assets)
    (src : String → Option ℚ) : List (String × ℚ) :=
  majorTargets.map (fun p =>
    (p.1, subDiffPct (total_value assets src) p.2 (cls_summary assets src p.1)))

/-- One row of the `data_sub` report table (src/pages/show.py:601-618),
with the numeric values the formatted strings are printed from. -/
structure SubRow where
  curAmount : ℚ
  curPct : ℚ
  tgtAmount : ℚ
  tgtPct : ℚ
  diffAmount : ℚ
  diffPct : ℚ
deriving DecidableEq

/-- The row built for configured key `k` with target fraction `tar`. -/
def subRowFor (assets : Assets) (src : String → Option ℚ) (k : String)
    (tar : ℚ) : SubRow :=
  { curAmount := pyRound2 (sub_summary assets src k)
    curPct := pyRound2 (sub_summary assets src k / total_value assets src * 100)
    tgtAmount := pyRound2 (total_value assets src * tar)
    tgtPct := pyRound2 (tar * 100)
    diffAmount := pyRound2 (sub_diff (total_value assets src) tar (sub_summary assets src k))
    diffPct := pyRound2 (subDiffPct (total_value assets src) tar (sub_summary assets src k)) }

/-- `data_sub`: the subcategory report rows, iterated in the declaration
order of `target_ratio_sub`. -/
def data_sub (subTargets : List (String × ℚ)) (assets : Assets)
    (src : String → Option ℚ) : List (String × SubRow) :=
  subTargets.map (fun p => (p.1, subRowFor assets src p.1 p.2))

/-- One entry of the advisor's `adjustment` dictionary
(src/pages/show.py:674-680). -/
structure AdjInfo where
  tgt : ℚ
  cur : ℚ
  diffR : ℚ
  diffV : ℚ
  devPct : ℚ
deriving DecidableEq

/-- The advisor's per-key record: `current = current_ratio.get(category,
0.0)` equals `sub_summary k / total_value` (`0` for an absent group);
`deviation_pct = abs(diff_ratio) / target if target > 0 else 1.0`. -/
def adjInfoFor (assets : Assets) (src : String → Option ℚ) (k : String)
    (tar : ℚ) : AdjInfo :=
  let cur := sub_summary assets src k / total_value assets src
  { tgt := tar
    cur := cur
    diffR := tar - cur
    diffV := total_value assets src * (tar - cur)
    devPct := if 0 < tar then |tar - cur| / tar else 1 }

/-- The `adjustment` dictionary (src/pages/show.py:663-680): every
configured subcategory except the hard-coded liquidity bucket
`"机动-现金"`, which the loop skips with `continue`. -/
def adjustment (subTargets : List (String × ℚ)) (assets : Assets)
    (src : String → Option ℚ) : List (String × AdjInfo) :=
  subTargets.filterMap (fun p =>
    if p.1 = "机动-现金" then none
    else some (p.1, adjInfoFor assets src p.1 p.2))

/-- `significant_adj` (src/pages/show.py:683-686): the actionable entries,
`deviation_pct >= 0.2`.  The source's second conjunct
`v.get("类型") != "cash"` is vacuously true — no entry of `adjustment`
ever carries a `"类型"` key — and so is omitted. -/
def significant_adj (subTargets : List (String × ℚ)) (assets : Assets)
    (src : String → Option ℚ) : List (String × AdjInfo) :=
  (adjustment subTargets assets src).filter (fun p => decide (0.2 ≤ p.2.devPct))

/-- `(base_shares // 100) * 100` — Python floor division on the exact
quotient, times the lot size. -/
def lotFloor (x : ℚ) : ℚ :=
  (Int.floor (x / 100) : ℚ) * 100

/-- `adjust_shares` (src/pages/show.py:739-766): the per-holding delta in
units, as a function of the instrument type, the theoretical raw delta
(`base_shares`) and the currently held quantity (`current_shares`).
`etf` buys floor to the lot; `etf` sells take `(base // 100 + 1) * 100`
and fall back to `-(current // 100) * 100` when that magnitude exceeds the
holding; `fund` rounds to 2 decimals with the sell capped at
`round(current_shares, 2)`; any other type keeps the initial `0`. -/
def adjust_shares (assetType : String) (base q : ℚ) : ℚ :=
  if assetType = "etf" then
    if 0 < base then lotFloor base
    else if base < 0 then
      if q < |((Int.floor (base / 100) : ℚ) + 1) * 100| then -(lotFloor q)
      else ((Int.floor (base / 100) : ℚ) + 1) * 100
    else 0
  else if assetType = "fund" then
    if 0 < base then pyRound2 base
    else if base < 0 then
      if q < |pyRound2 base| then -(pyRound2 q) else pyRound2 base
    else 0
  else 0

/-- Modelled from the spec's words, for refinement comparison only (claim
C2): a lot-traded sell magnitude is the raw magnitude rounded down toward
zero to a lot multiple, capped at the quantity rounded down to a lot
multiple. -/
def specEtfSellMagnitude (rawMag q : ℚ) : ℚ :=
  min (lotFloor rawMag) (lotFloor q)

/-- The greatest multiple of 100 strictly below `x`. -/
def strictLotBelow (x : ℚ) : ℚ :=
  ((Int.ceil (x / 100) : ℚ) - 1) * 100

/-- One row of `df` restricted to a subcategory, as consumed by the
suggestion loop (src/pages/show.py:725-780). -/
structure Holding where
  name : String
  type : String
  shares : ℚ
  value : ℚ
deriving DecidableEq

/-- The advisor's per-subcategory output: either the advisory that the
subcategory has no holdings (`该小类暂无标的`), or the list of nonzero
per-holding share suggestions actually displayed. -/
inductive CatAdvice
  | noHoldings
  | suggestions (l : List (String × ℚ))
deriving DecidableEq

/-- The suggested share delta for one holding of an actionable subcategory
with holdings total `catTotal` and value deviation `dv` (`adj["价值偏差"]`):
`unit_value` falls back to `1` on zero quantity, and the whole computation
is skipped (yielding the initial `0`) unless `unit_value > 0`.  (In `ℚ`,
`h.value / catTotal` is `0` when `catTotal = 0` where NumPy produces `nan`;
every theorem below that touches the `catTotal = 0` case forces
`h.value = 0`, where both semantics reach the same `0` through the
`unit_value > 0` and sign guards.) -/
def suggestion_for (catTotal dv : ℚ) (h : Holding) : ℚ :=
  let unit_value : ℚ := if 0 < h.shares then h.value / h.shares else 1
  let assetAdjustValue := dv * (h.value / catTotal)
  if 0 < unit_value then adjust_shares h.type (assetAdjustValue / unit_value) h.shares
  else 0

/-- The per-subcategory branch of the suggestion loop: the advisory fires
iff `category_assets` is empty; otherwise each holding's nonzero suggestion
is displayed. -/
def category_advice (hs : List Holding) (dv : ℚ) : CatAdvice :=
  if hs = [] then .noHoldings
  else
    .suggestions
      (((hs.map (fun h =>
        (h.name, suggestion_for ((hs.map Holding.value).sum) dv h))).filter
          (fun p => !(p.2 == 0))))

/-! ## Helper lemmas -/

theorem find?_first {α : Type} (p : α → Bool) (l : List α) (a : α)
    (h : l.find? p = some a) :
    ∃ l₁ l₂, l = l₁ ++ a :: l₂ ∧ p a = true ∧ ∀ x ∈ l₁, p x = false := by
  induction l with
  | nil => simp [List.find?] at h
  | cons b rest ih =>
    by_cases hb : p b = true
    · rw [List.find?_cons_of_pos _ hb] at h
      obtain rfl : b = a := by simpa using h
      exact ⟨[], rest, rfl, hb, by simp⟩
    · rw [List.find?_cons_of_neg _ hb] at h
      obtain ⟨l₁, l₂, rfl, hpa, hall⟩ := ih h
      refine ⟨b :: l₁, l₂, rfl, hpa, ?_⟩
      intro x hx
      rcases List.mem_cons.mp hx with rfl | hx
      · simpa using hb
      · exact hall x hx

theorem majorBad_eq_false (p : String × MajorData) :
    majorBad p = false ↔
      (0.99 * p.2.ratioVal ≤ minorTotal p.2 ∧
       minorTotal p.2 ≤ 1.01 * p.2.ratioVal) := by
  simp [majorBad]

theorem majorBad_eq_true (p : String × MajorData) :
    majorBad p = true ↔
      ¬(0.99 * p.2.ratioVal ≤ minorTotal p.2 ∧
        minorTotal p.2 ≤ 1.01 * p.2.ratioVal) := by
  rw [← majorBad_eq_false]
  cases h : majorBad p <;> simp

theorem lookup?_override {α : Type} (cur : List (String × α))
    (f : String → α → α) (k : String) :
    lookup? (cur.map (fun p => (p.1, f p.1 p.2))) k =
      (lookup? cur k).map (fun v => f k v) := by
  induction cur with
  | nil => rfl
  | cons p rest ih =>
    by_cases h : p.1 = k
    · subst h
      simp [lookup?]
    · simp [lookup?, h, ih]

theorem lookup?_append {α : Type} (a b : List (String × α)) (k : String) :
    lookup? (a ++ b) k =
      ((lookup? a k).map some).getD (lookup? b k) := by
  induction a with
  | nil => rfl
  | cons p rest ih =>
    by_cases h : p.1 = k
    · simp [lookup?, h]
    · simp [lookup?, h, ih]

theorem lookup?_filter_ne {α : Type} (l : List (String × α)) (nm : String) :
    lookup? (l.filter (fun p => !(p.1 == nm))) nm = none := by
  induction l with
  | nil => rfl
  | cons p rest ih =>
    rw [List.filter_cons]
    by_cases h : p.1 = nm
    · simpa [h] using ih
    · simpa [h, lookup?] using ih

theorem lookup?_filter_other {α : Type} (l : List (String × α)) (nm m : String)
    (hne : m ≠ nm) :
    lookup? (l.filter (fun p => !(p.1 == nm))) m = lookup? l m := by
  induction l with
  | nil => rfl
  | cons p rest ih =>
    rw [List.filter_cons]
    by_cases h : p.1 = nm
    · simpa [h, lookup?, Ne.symm hne] using ih
    · by_cases hm : p.1 = m
      · simp [h, hm, lookup?, hne, Ne.symm hne]
      · simpa [h, hm, lookup?] using ih

/-! ## Claim C3 -/

/-- Claim C3: saving an edited category hierarchy succeeds and commits iff
Invariant A (major ratios sum into `[0.99, 1.01]`) and Invariant B (each
major's subcategory ratios sum into `[0.99·ratio, 1.01·ratio]`) both hold;
on a violation the stored hierarchy is unchanged and the diagnostic cites
the exact computed sum of the first violated invariant. -/
theorem claim3_config_validation (cats stored : Categories) :
    ((save_categories_to_db cats stored).1 = true ↔
      ((0.99 ≤ totalMajor cats ∧ totalMajor cats ≤ 1.01) ∧
       ∀ p ∈ cats, 0.99 * p.2.ratioVal ≤ minorTotal p.2 ∧
         minorTotal p.2 ≤ 1.01 * p.2.ratioVal)) ∧
    ((save_categories_to_db cats stored).1 = true →
      (save_categories_to_db cats stored).2.1 = cats) ∧
    ((save_categories_to_db cats stored).1 = false →
      (save_categories_to_db cats stored).2.1 = stored ∧
      ∃ e, (save_categories_to_db cats stored).2.2 = some e ∧
        citesFirstViolation cats e) := by
  by_cases hA : 0.99 ≤ totalMajor cats ∧ totalMajor cats ≤ 1.01
  · rcases hfind : cats.find? majorBad with _ | p
    · have hres : save_categories_to_db cats stored = (true, cats, none) := by
        rw [save_categories_to_db, if_pos hA, hfind]
      rw [hres]
      have hall : ∀ p ∈ cats, 0.99 * p.2.ratioVal ≤ minorTotal p.2 ∧
          minorTotal p.2 ≤ 1.01 * p.2.ratioVal := by
        intro p hp
        have := List.find?_eq_none.mp hfind p hp
        exact (majorBad_eq_false p).mp (by simpa using this)
      exact ⟨⟨fun _ => ⟨hA, hall⟩, fun _ => rfl⟩, fun _ => rfl, by simp⟩
    · have hres : save_categories_to_db cats stored =
          (false, stored, some (.minorSum p.1 p.2.ratioVal (minorTotal p.2))) := by
        rw [save_categories_to_db, if_pos hA, hfind]
      rw [hres]
      have hbadp : ¬(0.99 * p.2.ratioVal ≤ minorTotal p.2 ∧
          minorTotal p.2 ≤ 1.01 * p.2.ratioVal) :=
        (majorBad_eq_true p).mp (List.find?_some hfind)
      have hmemp : p ∈ cats := List.mem_of_find?_eq_some hfind
      obtain ⟨l₁, l₂, hsplit, hbad, hgood⟩ := find?_first majorBad cats p hfind
      refine ⟨⟨fun hcontra => absurd hcontra (by simp),
          fun hrhs => (hbadp (hrhs.2 p hmemp)).elim⟩, by simp, fun _ => ?_⟩
      refine ⟨rfl, .minorSum p.1 p.2.ratioVal (minorTotal p.2), rfl, hA,
        l₁, p.2, l₂, hsplit, rfl, rfl, hbadp, ?_⟩
      intro x hx
      exact (majorBad_eq_false x).mp (hgood x hx)
  · have hres : save_categories_to_db cats stored =
        (false, stored, some (.majorSum (totalMajor cats))) := by
      rw [save_categories_to_db, if_neg hA]
    rw [hres]
    exact ⟨⟨fun hcontra => absurd hcontra (by simp),
      fun hrhs => (hA hrhs.1).elim⟩, by simp,
      fun _ => ⟨rfl, .majorSum (totalMajor cats), rfl, rfl, hA⟩⟩

/-- Witness for C3: a hierarchy whose single major ratio is `0.87`
violates Invariant A; the save leaves the stored hierarchy unchanged and
the diagnostic cites the exact computed sum. -/
theorem claim3_config_validation_witness :
    (save_categories_to_db [("债券", ⟨0.87, [("利率", 0.87)]⟩)] []).2.1 = [] ∧
    ∃ e, (save_categories_to_db [("债券", ⟨0.87, [("利率", 0.87)]⟩)] []).2.2 = some e ∧
      citesFirstViolation [("债券", ⟨0.87, [("利率", 0.87)]⟩)] e := by
  apply (claim3_config_validation [("债券", ⟨0.87, [("利率", 0.87)]⟩)] []).2.2
  rw [save_categories_to_db, if_neg (by norm_num [totalMajor])]

/-! ## Claim C4 -/

/-- Claim C4: for every configured key (major or subcategory) whose target
value `total_value * tar` is zero, the deviation analyzer's table reports a
deviation percentage of exactly `0` (the analyzer's explicit
division-by-zero guard, at both hierarchy levels). -/
theorem claim4_zero_target_pct (assets : Assets) (src : String → Option ℚ)
    (subTargets majorTargets : List (String × ℚ)) :
    (∀ k tar, (k, tar) ∈ subTargets → total_value assets src * tar = 0 →
      (k, (0 : ℚ)) ∈ sub_diff_pct_table subTargets assets src) ∧
    (∀ k tar, (k, tar) ∈ majorTargets → total_value assets src * tar = 0 →
      (k, (0 : ℚ)) ∈ cls_diff_pct_table majorTargets assets src) := by
  constructor
  · intro k tar hmem hz
    have : subDiffPct (total_value assets src) tar (sub_summary assets src k) = 0 := by
      rw [subDiffPct, if_neg (not_not_intro hz)]
    exact this ▸ List.mem_map.mpr ⟨(k, tar), hmem, by simp [this]⟩
  · intro k tar hmem hz
    have : subDiffPct (total_value assets src) tar (cls_summary assets src k) = 0 := by
      rw [subDiffPct, if_neg (not_not_intro hz)]
    exact this ▸ List.mem_map.mpr ⟨(k, tar), hmem, by simp [this]⟩

/-- Witness for C4: with no holdings the total is `0`, and the configured
subcategory key is reported with deviation percentage `0`. -/
theorem claim4_zero_target_pct_witness :
    ("债券-利率/国债", (0 : ℚ)) ∈
      sub_diff_pct_table [("债券-利率/国债", 1/5)] [] (fun _ => none) := by
  refine (claim4_zero_target_pct [] (fun _ => none) [("债券-利率/国债", 1/5)] []).1
    "债券-利率/国债" (1/5) (by simp) ?_
  simp [total_value, current_values]

/-! ## Claim C9 -/

/-- Claim C9: adding an asset whose name already exists reports success and
silently replaces the existing record wholesale, leaving every other
holding's lookup unchanged. -/
theorem claim9_add_existing_name (cur : Assets) (nm : String)
    (old fresh : AssetInfo) (hmem : lookup? cur nm = some old) :
    (add_asset_to_db [(nm, fresh)] cur).1 = true ∧
    lookup? (add_asset_to_db [(nm, fresh)] cur).2 nm = some fresh ∧
    ∀ m, m ≠ nm → lookup? (add_asset_to_db [(nm, fresh)] cur).2 m = lookup? cur m := by
  have hfilter : ([(nm, fresh)] : Assets).filter
      (fun p => (lookup? cur p.1).isNone) = [] := by
    simp [List.filter, hmem]
  have hmain : (add_asset_to_db [(nm, fresh)] cur).2 =
      cur.map (fun p => (p.1, (lookup? [(nm, fresh)] p.1).getD p.2)) := by
    simp [add_asset_to_db, dictMerge, hfilter]
  refine ⟨rfl, ?_, ?_⟩
  · rw [hmain, lookup?_override cur (fun k v => (lookup? [(nm, fresh)] k).getD v) nm,
      hmem]
    simp [lookup?]
  · intro m hne
    rw [hmain, lookup?_override cur (fun k v => (lookup? [(nm, fresh)] k).getD v) m]
    have hnm : lookup? ([(nm, fresh)] : Assets) m = none := by
      have : ¬ nm = m := fun h => hne h.symm
      simp [lookup?, this]
    rw [hnm]
    simp

/-- Witness for C9 at a concrete two-holding table. -/
theorem claim9_add_existing_name_witness :
    (add_asset_to_db [("黄金ETF", ⟨"sh518880", "etf", 300, "商品-黄金", ""⟩)]
      [("黄金ETF", ⟨"sh518880", "etf", 100, "商品-黄金", "旧"⟩),
       ("现金", ⟨"", "cash", 5000, "机动-现金", ""⟩)]).1 = true ∧
    lookup? (add_asset_to_db [("黄金ETF", ⟨"sh518880", "etf", 300, "商品-黄金", ""⟩)]
      [("黄金ETF", ⟨"sh518880", "etf", 100, "商品-黄金", "旧"⟩),
       ("现金", ⟨"", "cash", 5000, "机动-现金", ""⟩)]).2 "黄金ETF" =
      some ⟨"sh518880", "etf", 300, "商品-黄金", ""⟩ ∧
    lookup? (add_asset_to_db [("黄金ETF", ⟨"sh518880", "etf", 300, "商品-黄金", ""⟩)]
      [("黄金ETF", ⟨"sh518880", "etf", 100, "商品-黄金", "旧"⟩),
       ("现金", ⟨"", "cash", 5000, "机动-现金", ""⟩)]).2 "现金" =
      some ⟨"", "cash", 5000, "机动-现金", ""⟩ := by
  have h := claim9_add_existing_name
    [("黄金ETF", ⟨"sh518880", "etf", 100, "商品-黄金", "旧"⟩),
     ("现金", ⟨"", "cash", 5000, "机动-现金", ""⟩)]
    "黄金ETF" ⟨"sh518880", "etf", 100, "商品-黄金", "旧"⟩
    ⟨"sh518880", "etf", 300, "商品-黄金", ""⟩ (by simp [lookup?])
  refine ⟨h.1, h.2.1, ?_⟩
  rw [h.2.2 "现金" (by decide)]
  simp [lookup?]

/-! ## Claim C10 -/

/-- Claim C10: deleting an existing holding removes exactly that name and
reports success; deleting a missing name reports failure and leaves the
stored holdings untouched. -/
theorem claim10_delete (cur : Assets) (nm : String) :
    ((lookup? cur nm).isSome →
      (delete_asset_from_db nm cur).1 = true ∧
      lookup? (delete_asset_from_db nm cur).2 nm = none ∧
      ∀ m, m ≠ nm → lookup? (delete_asset_from_db nm cur).2 m = lookup? cur m) ∧
    (lookup? cur nm = none →
      (delete_asset_from_db nm cur).1 = false ∧
      (delete_asset_from_db nm cur).2 = cur) := by
  constructor
  · intro hsome
    rw [delete_asset_from_db, if_pos hsome]
    exact ⟨rfl, lookup?_filter_ne cur nm, fun m hm => lookup?_filter_other cur nm m hm⟩
  · intro hnone
    rw [delete_asset_from_db, if_neg (by simp [hnone])]
    exact ⟨rfl, rfl⟩

/-- Witness for C10, both branches, at a concrete table. -/
theorem claim10_delete_witness :
    (delete_asset_from_db "现金"
      [("现金", ⟨"", "cash", 5000, "机动-现金", ""⟩)]).1 = true ∧
    lookup? (delete_asset_from_db "现金"
      [("现金", ⟨"", "cash", 5000, "机动-现金", ""⟩)]).2 "现金" = none ∧
    (delete_asset_from_db "债券"
      [("现金", ⟨"", "cash", 5000, "机动-现金", ""⟩)]).1 = false ∧
    (delete_asset_from_db "债券"
      [("现金", ⟨"", "cash", 5000, "机动-现金", ""⟩)]).2 =
      [("现金", ⟨"", "cash", 5000, "机动-现金", ""⟩)] := by
  have h1 := (claim10_delete [("现金", ⟨"", "cash", 5000, "机动-现金", ""⟩)] "现金").1
    (by simp [lookup?])
  have h2 := (claim10_delete [("现金", ⟨"", "cash", 5000, "机动-现金", ""⟩)] "债券").2
    (by simp [lookup?])
  exact ⟨h1.1, h1.2.1, h2.1, h2.2⟩

/-! ## Claim C8 -/

/-- Claim C8: every key configured in `target_ratio_sub` appears in the
report rows `data_sub`, the row order is the keys' declaration order, and
a configured key with no holding mapped to it is still reported, with
actual value `0`. -/
theorem claim8_report_rows (subTargets : List (String × ℚ)) (assets : Assets)
    (src : String → Option ℚ) :
    ((data_sub subTargets assets src).map Prod.fst = subTargets.map Prod.fst) ∧
    ∀ k tar, (k, tar) ∈ subTargets →
      assets.filter (fun p => p.2.category == k) = [] →
      (k, subRowFor assets src k tar) ∈ data_sub subTargets assets src ∧
      (subRowFor assets src k tar).curAmount = 0 := by
  constructor
  · simp [data_sub]
  · intro k tar hmem hempty
    refine ⟨List.mem_map.mpr ⟨(k, tar), hmem, rfl⟩, ?_⟩
    have hzero : sub_summary assets src k = 0 := by
      rw [sub_summary, hempty]
      simp
    show pyRound2 (sub_summary assets src k) = 0
    rw [hzero]
    norm_num [pyRound2, roundHalfEven]

/-- Witness for C8: an empty portfolio still reports the configured key,
with actual value `0`. -/
theorem claim8_report_rows_witness :
    ("股票-内地/沪深", subRowFor [] (fun _ => none) "股票-内地/沪深" (1/10)) ∈
      data_sub [("股票-内地/沪深", 1/10)] [] (fun _ => none) ∧
    (subRowFor [] (fun _ => none) "股票-内地/沪深" (1/10)).curAmount = 0 :=
  claim8_report_rows [("股票-内地/沪深", 1/10)] [] (fun _ => none) |>.2
    "股票-内地/沪深" (1/10) (by simp) (by simp)

/-! ## Claim C5 -/

theorem lookup?_fetchA_not_mem (assets : Assets) (src : String → Option ℚ)
    (n : String) (hn : n ∉ assets.map Prod.fst) :
    lookup? (fetchA assets src) n = none := by
  induction assets with
  | nil => rfl
  | cons p rest ih =>
    have hpn : ¬ p.1 = n := fun h => hn (by simp [h])
    have hn2 : n ∉ rest.map Prod.fst := fun h => hn (by simp [h])
    have ih2 := ih hn2
    simp only [fetchA] at ih2 ⊢
    rw [List.filterMap_cons]
    by_cases hat : attemptsLookup p.2
    · rcases hsrc : src p.2.code with _ | pr
      · simpa [hat, hsrc] using ih2
      · simpa [hat, hsrc, lookup?, hpn] using ih2
    · simpa [hat] using ih2

theorem lookup?_fetchA (assets : Assets) (src : String → Option ℚ)
    (hnd : (assets.map Prod.fst).Nodup) (n : String) (i : AssetInfo)
    (hmem : (n, i) ∈ assets) :
    lookup? (fetchA assets src) n =
      (if attemptsLookup i then src i.code else none) := by
  induction assets with
  | nil => cases hmem
  | cons p rest ih =>
    have hnd2 := hnd
    rw [List.map_cons, List.nodup_cons] at hnd2
    obtain ⟨hhead, hndrest⟩ := hnd2
    rcases List.mem_cons.mp hmem with heq | hmem2
    · subst heq
      have hnotin : n ∉ rest.map Prod.fst := by simpa using hhead
      have hrest := lookup?_fetchA_not_mem rest src n hnotin
      simp only [fetchA] at hrest ⊢
      rw [List.filterMap_cons]
      by_cases hat : attemptsLookup i
      · rcases hsrc : src i.code with _ | pr
        · simpa [hat, hsrc] using hrest
        · simp [hat, hsrc, lookup?]
      · simpa [hat] using hrest
    · have hne : ¬ p.1 = n := by
        intro h
        exact hhead (h ▸ (List.mem_map.mpr ⟨(n, i), hmem2, rfl⟩))
      have ih2 := ih hndrest hmem2
      simp only [fetchA] at ih2 ⊢
      rw [List.filterMap_cons]
      by_cases hat : attemptsLookup p.2
      · rcases hsrc : src p.2.code with _ | pr
        · simpa [hat, hsrc] using ih2
        · simpa [hat, hsrc, lookup?, hne] using ih2
      · simpa [hat] using ih2

theorem current_value_eq_pointValue (assets : Assets) (src : String → Option ℚ)
    (hnd : (assets.map Prod.fst).Nodup) (n : String) (i : AssetInfo)
    (hmem : (n, i) ∈ assets) :
    current_value (fetchA assets src) n i =
      pointValue i (if attemptsLookup i then src i.code else none) := by
  unfold current_value pointValue
  by_cases hc : i.type = "cash"
  · rw [if_pos hc, if_pos hc]
  · rw [if_neg hc, if_neg hc, lookup?_fetchA assets src hnd n i hmem]

/-- Claim C5: in snapshot valuation every `cash` holding is valued at its
quantity with no price lookup attempted; every holding whose (spec-modelled)
price lookup fails is valued at exactly `0` and surfaced in the warning
list; and every holding's value depends only on its own record and its own
lookup result, so one instrument's failure never disturbs the rest of the
snapshot. -/
theorem claim5_valuation (assets : Assets) (src : String → Option ℚ)
    (hnd : (assets.map Prod.fst).Nodup) :
    (current_values assets src = assets.map (fun p =>
      (p.1, pointValue p.2 (if attemptsLookup p.2 then src p.2.code else none)))) ∧
    (∀ i : AssetInfo, i.type = "cash" →
      attemptsLookup i = false ∧ ∀ r, pointValue i r = i.amount) ∧
    (∀ n i, (n, i) ∈ assets → attemptsLookup i = true → src i.code = none →
      (n, (0 : ℚ)) ∈ current_values assets src ∧ n ∈ fetchWarnings assets src) := by
  refine ⟨?_, ?_, ?_⟩
  · rw [current_values]
    apply List.map_congr_left
    intro p hp
    rw [current_value_eq_pointValue assets src hnd p.1 p.2 hp]
  · intro i hc
    constructor
    · rw [attemptsLookup, hc]
      rfl
    · intro r
      unfold pointValue
      rw [if_pos hc]
  · intro n i hmem hat hsrc
    have hnotcash : ¬ i.type = "cash" := by
      intro hc
      rw [attemptsLookup, hc] at hat
      simp at hat
    constructor
    · refine List.mem_map.mpr ⟨(n, i), hmem, ?_⟩
      rw [current_value_eq_pointValue assets src hnd n i hmem, hat, if_pos rfl,
        hsrc]
      unfold pointValue
      rw [if_neg hnotcash]
    · exact List.mem_filterMap.mpr ⟨(n, i), hmem, by simp [hat, hsrc]⟩

/-- Witness for C5: a portfolio with one cash holding and one `etf` whose
lookup fails — the `etf` is valued `0` and warned about, the cash holding
valued at its quantity, and valuation covers both holdings. -/
theorem claim5_valuation_witness :
    ("ETF1", (0 : ℚ)) ∈
      current_values [("现金", ⟨"", "cash", 500, "机动-现金", ""⟩),
        ("ETF1", ⟨"sh510300", "etf", 100, "股票-内地/沪深", ""⟩)] (fun _ => none) ∧
    "ETF1" ∈ fetchWarnings [("现金", ⟨"", "cash", 500, "机动-现金", ""⟩),
        ("ETF1", ⟨"sh510300", "etf", 100, "股票-内地/沪深", ""⟩)] (fun _ => none) ∧
    ("现金", (500 : ℚ)) ∈
      current_values [("现金", ⟨"", "cash", 500, "机动-现金", ""⟩),
        ("ETF1", ⟨"sh510300", "etf", 100, "股票-内地/沪深", ""⟩)] (fun _ => none) := by
  have h := claim5_valuation [("现金", ⟨"", "cash", 500, "机动-现金", ""⟩),
    ("ETF1", ⟨"sh510300", "etf", 100, "股票-内地/沪深", ""⟩)] (fun _ => none)
    (by simp)
  have h3 := h.2.2 "ETF1" ⟨"sh510300", "etf", 100, "股票-内地/沪深", ""⟩
    (by simp) (by decide) rfl
  refine ⟨h3.1, h3.2, ?_⟩
  rw [h.1]
  simp [pointValue]

/-! ## Rounding lemmas -/

theorem roundHalfEven_ge_floor (y : ℚ) : Int.floor y ≤ roundHalfEven y := by
  unfold roundHalfEven
  split_ifs <;> omega

theorem floor_lt_ceil_of_frac_pos (y : ℚ) (h : (Int.floor y : ℚ) < y) :
    Int.floor y < Int.ceil y := by
  have h2 : (Int.floor y : ℚ) < (Int.ceil y : ℚ) := lt_of_lt_of_le h (Int.le_ceil y)
  exact_mod_cast h2

theorem roundHalfEven_le_ceil (y : ℚ) : roundHalfEven y ≤ Int.ceil y := by
  unfold roundHalfEven
  split_ifs with h1 h2 h3
  · exact Int.floor_le_ceil y
  · have hf : (Int.floor y : ℚ) < y := by linarith
    have := floor_lt_ceil_of_frac_pos y hf
    omega
  · exact Int.floor_le_ceil y
  · have hf : (Int.floor y : ℚ) < y := by linarith
    have := floor_lt_ceil_of_frac_pos y hf
    omega

theorem pyRound2_le_of_lt (x : ℚ) (n : ℤ) (h : x < (n : ℚ) / 100) :
    pyRound2 x ≤ (n : ℚ) / 100 := by
  unfold pyRound2
  have h1 : x * 100 < (n : ℚ) := by linarith
  have h2 : Int.ceil (x * 100) ≤ n := Int.ceil_le.mpr (le_of_lt h1)
  have h3 : roundHalfEven (x * 100) ≤ n := le_trans (roundHalfEven_le_ceil _) h2
  have h4 : (roundHalfEven (x * 100) : ℚ) ≤ (n : ℚ) := by exact_mod_cast h3
  linarith

theorem le_pyRound2_of_le (x : ℚ) (n : ℤ) (h : (n : ℚ) / 100 ≤ x) :
    (n : ℚ) / 100 ≤ pyRound2 x := by
  unfold pyRound2
  have h1 : (n : ℚ) ≤ x * 100 := by linarith
  have h2 : n ≤ Int.floor (x * 100) := Int.le_floor.mpr h1
  have h3 : n ≤ roundHalfEven (x * 100) := le_trans h2 (roundHalfEven_ge_floor _)
  have h4 : (n : ℚ) ≤ (roundHalfEven (x * 100) : ℚ) := by exact_mod_cast h3
  linarith

theorem pyRound2_nonpos (x : ℚ) (h : x ≤ 0) : pyRound2 x ≤ 0 := by
  unfold pyRound2
  have h2 : Int.ceil (x * 100) ≤ 0 := Int.ceil_le.mpr (by push_cast; nlinarith)
  have h3 : roundHalfEven (x * 100) ≤ 0 := le_trans (roundHalfEven_le_ceil _) h2
  have h4 : (roundHalfEven (x * 100) : ℚ) ≤ 0 := by exact_mod_cast h3
  linarith

theorem pyRound2_nonneg (x : ℚ) (h : 0 ≤ x) : 0 ≤ pyRound2 x := by
  unfold pyRound2
  have h2 : (0 : ℤ) ≤ Int.floor (x * 100) := Int.le_floor.mpr (by push_cast; nlinarith)
  have h3 : (0 : ℤ) ≤ roundHalfEven (x * 100) := le_trans h2 (roundHalfEven_ge_floor _)
  have h4 : (0 : ℚ) ≤ (roundHalfEven (x * 100) : ℚ) := by exact_mod_cast h3
  linarith

theorem pyRound2_intCast_div (n : ℤ) : pyRound2 ((n : ℚ) / 100) = (n : ℚ) / 100 := by
  unfold pyRound2
  have h1 : (n : ℚ) / 100 * 100 = (n : ℚ) := by field_simp
  rw [h1]
  have h2 : roundHalfEven ((n : ℚ)) = n := by
    unfold roundHalfEven
    rw [Int.floor_intCast]
    norm_num
  rw [h2]

theorem lotFloor_le (x : ℚ) : lotFloor x ≤ x := by
  rw [lotFloor]
  have := Int.floor_le (x / 100)
  linarith

theorem lotFloor_nonneg (x : ℚ) (h : 0 ≤ x) : 0 ≤ lotFloor x := by
  rw [lotFloor]
  have h1 : (0 : ℤ) ≤ Int.floor (x / 100) := Int.le_floor.mpr (by positivity)
  have h2 : (0 : ℚ) ≤ (Int.floor (x / 100) : ℚ) := by exact_mod_cast h1
  linarith

/-! ## Claim C2 -/

/-- Counterexample to claim C2 as stated: with a raw sell delta that is an
exact lot multiple (`-200`) and ample quantity (`500`), the code recommends
selling only `100`, not the `200` that "raw magnitude rounded down toward
zero to a lot multiple, capped at quantity floored to a lot" (the spec
reading of the claim, `specEtfSellMagnitude`) would give. -/
theorem claim2_counterexample :
    adjust_shares "etf" (-200) 500 = -100 ∧
    -(specEtfSellMagnitude 200 500) = -200 ∧
    adjust_shares "etf" (-200) 500 ≠ -(specEtfSellMagnitude 200 500) := by
  refine ⟨?_, ?_, ?_⟩ <;>
    norm_num [adjust_shares, specEtfSellMagnitude, lotFloor]

/-- Claim C2 (amended): for a lot-traded (`etf`) holding, a buy floors the
raw delta to the lot (never above the computed delta); a sell's magnitude
is the greatest lot multiple *strictly below* the raw magnitude, capped at
the current quantity floored to the lot — so it never reaches the raw
magnitude and never exceeds the quantity (no short sale). -/
theorem claim2_etf_lot_sizing (base q : ℚ) (hq : 0 ≤ q) :
    (0 < base →
      adjust_shares "etf" base q = lotFloor base ∧ lotFloor base ≤ base) ∧
    (base < 0 →
      adjust_shares "etf" base q = -(min (strictLotBelow (-base)) (lotFloor q)) ∧
      |adjust_shares "etf" base q| ≤ q ∧
      |adjust_shares "etf" base q| < -base) := by
  have hetf : adjust_shares "etf" base q =
      (if 0 < base then lotFloor base
       else if base < 0 then
         if q < |((Int.floor (base / 100) : ℚ) + 1) * 100| then -(lotFloor q)
         else ((Int.floor (base / 100) : ℚ) + 1) * 100
       else 0) := by
    rw [adjust_shares, if_pos rfl]
  constructor
  · intro hb
    exact ⟨by rw [hetf, if_pos hb], lotFloor_le base⟩
  · intro hb
    have hnpos : ¬ 0 < base := by linarith
    set c : ℚ := ((Int.floor (base / 100) : ℚ) + 1) * 100 with hc
    have hfneg : Int.floor (base / 100) < 0 := by
      rw [Int.floor_lt]
      push_cast
      have : base / 100 < 0 := div_neg_of_neg_of_pos hb (by norm_num)
      linarith
    have hcnp : c ≤ 0 := by
      have h1 : (Int.floor (base / 100) : ℚ) + 1 ≤ 0 := by
        have : Int.floor (base / 100) ≤ -1 := by omega
        have h2 : (Int.floor (base / 100) : ℚ) ≤ -1 := by exact_mod_cast this
        linarith
      nlinarith
    have hceq : -c = strictLotBelow (-base) := by
      rw [strictLotBelow]
      have h1 : Int.ceil (-base / 100) = -(Int.floor (base / 100)) := by
        rw [neg_div, Int.ceil_neg]
      rw [h1, hc]
      push_cast
      ring
    have habs : |c| = strictLotBelow (-base) := by rw [abs_of_nonpos hcnp, hceq]
    have hstrict : strictLotBelow (-base) < -base := by
      rw [strictLotBelow]
      have h1 : (Int.ceil (-base / 100) : ℚ) < -base / 100 + 1 := by
        exact_mod_cast Int.ceil_lt_add_one (-base / 100)
      linarith
    rw [hetf, if_neg hnpos, if_pos hb]
    by_cases hcase : q < |c|
    · rw [if_pos hcase]
      have hltq : lotFloor q < strictLotBelow (-base) :=
        lt_of_le_of_lt (lotFloor_le q) (habs ▸ hcase)
      refine ⟨by rw [min_eq_right (le_of_lt hltq)], ?_, ?_⟩
      · rw [abs_neg, abs_of_nonneg (lotFloor_nonneg q hq)]
        exact lotFloor_le q
      · rw [abs_neg, abs_of_nonneg (lotFloor_nonneg q hq)]
        exact lt_trans hltq hstrict
    · rw [if_neg hcase]
      have hge : |c| ≤ q := le_of_not_lt hcase
      have hle : strictLotBelow (-base) ≤ lotFloor q := by
        have hcm : |c| = ((-(Int.floor (base / 100) + 1) : ℤ) : ℚ) * 100 := by
          rw [abs_of_nonpos hcnp, hc]
          push_cast
          ring
        have h1 : ((-(Int.floor (base / 100) + 1) : ℤ) : ℚ) * 100 ≤ q := hcm ▸ hge
        have h2 : ((-(Int.floor (base / 100) + 1) : ℤ) : ℚ) ≤ q / 100 := by linarith
        have h3 : -(Int.floor (base / 100) + 1) ≤ Int.floor (q / 100) :=
          Int.le_floor.mpr h2
        have h4 : ((-(Int.floor (base / 100) + 1) : ℤ) : ℚ) ≤
            (Int.floor (q / 100) : ℚ) := by exact_mod_cast h3
        rw [← habs, hcm, lotFloor]
        linarith
      refine ⟨by rw [min_eq_left hle, ← hceq, neg_neg], ?_, ?_⟩
      · exact hge
      · rw [habs]
        exact hstrict

/-- Witness for C2 (amended): the spec's own lot-rounding examples — a buy
of raw `237` gives `200`, a sell of raw `-237` with `150` held gives
`-100`. -/
theorem claim2_etf_lot_sizing_witness :
    adjust_shares "etf" 237 150 = 200 ∧
    adjust_shares "etf" (-237) 150 = -100 := by
  constructor
  · have h := (claim2_etf_lot_sizing 237 150 (by norm_num)).1 (by norm_num)
    rw [h.1]
    norm_num [lotFloor]
  · have h := (claim2_etf_lot_sizing (-237) 150 (by norm_num)).2 (by norm_num)
    rw [h.1, strictLotBelow, lotFloor,
      show (- -237 : ℚ) = 237 from by norm_num,
      show (⌈(237 : ℚ) / 100⌉ : ℤ) = 3 from by rw [Int.ceil_eq_iff]; norm_num,
      show (⌊(150 : ℚ) / 100⌋ : ℤ) = 1 from by norm_num]
    norm_num

/-! ## Claim C7 -/

/-- Counterexample to claim C7 as stated: a `fund` sell with quantity
`10.016` (sub-cent precision) is capped at `round(10.016, 2) = 10.02`, so
the advisor recommends selling `10.02 > 10.016` — more than is held. -/
theorem claim7_counterexample :
    adjust_shares "fund" (-20) (1252 / 125) = -(501 / 50) ∧
    (1252 / 125 : ℚ) < 501 / 50 := by
  refine ⟨?_, by norm_num⟩
  rw [adjust_shares, if_neg (by decide), if_pos (by decide)]
  norm_num [pyRound2, roundHalfEven]

/-- Claim C7 (amended): a `fund` (continuous) delta is rounded to 2
decimals (banker's rounding); a sell's magnitude is the smaller of the
rounded raw magnitude and `round(quantity, 2)` — hence never exceeds the
quantity whenever the stored quantity is a whole number of hundredths (as
the spec's own example `raw = -12.345`, `quantity = 10.00 ⇒ -10.00`). -/
theorem claim7_fund_sizing (base q : ℚ) (hq : 0 ≤ q) :
    (0 < base → adjust_shares "fund" base q = pyRound2 base) ∧
    (base < 0 →
      adjust_shares "fund" base q = -(min |pyRound2 base| (pyRound2 q)) ∧
      ((∃ n : ℤ, q = (n : ℚ) / 100) → |adjust_shares "fund" base q| ≤ q)) := by
  have hfund : adjust_shares "fund" base q =
      (if 0 < base then pyRound2 base
       else if base < 0 then
         if q < |pyRound2 base| then -(pyRound2 q) else pyRound2 base
       else 0) := by
    rw [adjust_shares, if_neg (by decide), if_pos rfl]
  constructor
  · intro hb
    rw [hfund, if_pos hb]
  · intro hb
    have hnpos : ¬ 0 < base := by linarith
    rw [hfund, if_neg hnpos, if_pos hb]
    have hcnp : pyRound2 base ≤ 0 := pyRound2_nonpos base (le_of_lt hb)
    have habs : |pyRound2 base| = -(pyRound2 base) := abs_of_nonpos hcnp
    have haform : |pyRound2 base| = ((-(roundHalfEven (base * 100)) : ℤ) : ℚ) / 100 := by
      rw [habs]
      unfold pyRound2
      push_cast
      ring
    by_cases hcase : q < |pyRound2 base|
    · rw [if_pos hcase]
      have hle : pyRound2 q ≤ |pyRound2 base| := by
        rw [haform]
        exact pyRound2_le_of_lt q _ (by rw [← haform]; exact hcase)
      refine ⟨by rw [min_eq_right hle], ?_⟩
      rintro ⟨n, rfl⟩
      rw [pyRound2_intCast_div, abs_neg, abs_of_nonneg hq]
    · rw [if_neg hcase]
      have hge : |pyRound2 base| ≤ q := le_of_not_lt hcase
      have hle : |pyRound2 base| ≤ pyRound2 q := by
        rw [haform] at hge ⊢
        exact le_pyRound2_of_le q _ hge
      refine ⟨by rw [min_eq_left hle, habs, neg_neg], ?_⟩
      intro _
      exact hge

/-- Witness for C7 (amended): the spec's own example, `raw = -12.345` with
`10.00` held, yields a sell of exactly `10.00`. -/
theorem claim7_fund_sizing_witness :
    adjust_shares "fund" (-2469 / 200) 10 = -10 := by
  have h := (claim7_fund_sizing (-2469 / 200) 10 (by norm_num)).2 (by norm_num)
  have h1 : |pyRound2 (-2469 / 200 : ℚ)| = 617 / 50 := by
    rw [show pyRound2 (-2469 / 200 : ℚ) = -(617 / 50) from by
      norm_num [pyRound2, roundHalfEven]]
    rw [abs_neg, abs_of_nonneg (by norm_num)]
  have h2 : pyRound2 (10 : ℚ) = 10 := by norm_num [pyRound2, roundHalfEven]
  rw [h.1, h1, h2]
  norm_num

/-! ## Claim C1 -/

theorem nodup_keys_val_unique {α : Type} (l : List (String × α))
    (hnd : (l.map Prod.fst).Nodup) (k : String) (a b : α)
    (ha : (k, a) ∈ l) (hb : (k, b) ∈ l) : a = b := by
  induction l with
  | nil => cases ha
  | cons p rest ih =>
    have hnd2 := hnd
    rw [List.map_cons, List.nodup_cons] at hnd2
    obtain ⟨hhead, hndrest⟩ := hnd2
    rcases List.mem_cons.mp ha with h1 | h1 <;> rcases List.mem_cons.mp hb with h2 | h2
    · rw [← h1] at h2
      exact (((Prod.mk.injEq k b k a).mp h2).2).symm
    · exact absurd (List.mem_map.mpr ⟨(k, b), h2, rfl⟩) (h1 ▸ hhead)
    · exact absurd (List.mem_map.mpr ⟨(k, a), h1, rfl⟩) (h2 ▸ hhead)
    · exact ih hndrest h1 h2

theorem mem_adjustment_iff (subTargets : List (String × ℚ)) (assets : Assets)
    (src : String → Option ℚ) (k : String) (info : AdjInfo) :
    (k, info) ∈ adjustment subTargets assets src ↔
      k ≠ "机动-现金" ∧
      ∃ tar, (k, tar) ∈ subTargets ∧ info = adjInfoFor assets src k tar := by
  rw [adjustment, List.mem_filterMap]
  constructor
  · rintro ⟨p, hp, hval⟩
    by_cases hliq : p.1 = "机动-现金"
    · rw [if_pos hliq] at hval
      cases hval
    · rw [if_neg hliq] at hval
      have h1 : p.1 = k := congrArg Prod.fst (Option.some.injEq _ _ |>.mp hval)
      have h2 : adjInfoFor assets src p.1 p.2 = info :=
        congrArg Prod.snd (Option.some.injEq _ _ |>.mp hval)
      refine ⟨h1 ▸ hliq, p.2, ?_, ?_⟩
      · rw [← h1]
        exact hp
      · rw [← h2, h1]
  · rintro ⟨hliq, tar, hmem, rfl⟩
    exact ⟨(k, tar), hmem, by rw [if_neg hliq]⟩

theorem abs_subDiffPct (total tar actual : ℚ) (ht : total ≠ 0) (htar : 0 < tar) :
    |subDiffPct total tar actual| = |tar - actual / total| / tar * 100 := by
  have htv : total * tar ≠ 0 := mul_ne_zero ht (ne_of_gt htar)
  rw [subDiffPct, if_pos htv, sub_diff]
  have h1 : actual - total * tar = total * (actual / total - tar) := by
    field_simp
  rw [h1, mul_div_mul_left _ _ ht, abs_mul, abs_div, abs_of_pos htar,
    abs_sub_comm, abs_of_nonneg (show (0 : ℚ) ≤ 100 by norm_num)]

theorem devPct_threshold (total tar actual : ℚ) (ht : total ≠ 0) (htar : 0 < tar) :
    0.2 ≤ |tar - actual / total| / tar ↔ 20 ≤ |subDiffPct total tar actual| := by
  rw [abs_subDiffPct total tar actual ht htar]
  constructor <;> intro h <;> linarith

theorem adjInfoFor_devPct (assets : Assets) (src : String → Option ℚ)
    (k : String) (tar : ℚ) (htar : 0 < tar) :
    (adjInfoFor assets src k tar).devPct =
      |tar - sub_summary assets src k / total_value assets src| / tar := by
  simp [adjInfoFor, htar]

/-- Claim C1: with a nonzero snapshot total, a configured subcategory key
is actionable (appears in `significant_adj`, hence in the suggestion
output) iff its analyzer deviation percentage has magnitude at least 20
and it is not the hard-coded liquidity bucket `"机动-现金"`; the liquidity
bucket never appears in the actionable output. -/
theorem claim1_actionable_iff (subTargets : List (String × ℚ)) (assets : Assets)
    (src : String → Option ℚ) (k : String) (tar : ℚ)
    (ht : total_value assets src ≠ 0) (htar : 0 < tar)
    (hmem : (k, tar) ∈ subTargets)
    (hnd : (subTargets.map Prod.fst).Nodup) :
    (k ∈ (significant_adj subTargets assets src).map Prod.fst ↔
      (20 ≤ |subDiffPct (total_value assets src) tar (sub_summary assets src k)| ∧
        k ≠ "机动-现金")) ∧
    "机动-现金" ∉ (significant_adj subTargets assets src).map Prod.fst := by
  constructor
  · constructor
    · intro hk
      obtain ⟨⟨kp, ip⟩, hp, hfst⟩ := List.mem_map.mp hk
      have hkp : kp = k := hfst
      subst hkp
      obtain ⟨hpadj, hpcond⟩ := List.mem_filter.mp hp
      obtain ⟨hliq, tar2, hmem2, hinfo⟩ :=
        (mem_adjustment_iff subTargets assets src _ ip).mp hpadj
      have htar2 : tar2 = tar :=
        nodup_keys_val_unique subTargets hnd _ tar2 tar hmem2 hmem
      subst htar2
      have h02 : 0.2 ≤ ip.devPct := of_decide_eq_true hpcond
      rw [hinfo, adjInfoFor_devPct assets src _ _ htar] at h02
      exact ⟨(devPct_threshold _ _ _ ht htar).mp h02, hliq⟩
    · rintro ⟨hpct, hliq⟩
      have h02 : 0.2 ≤ (adjInfoFor assets src k tar).devPct := by
        rw [adjInfoFor_devPct assets src k tar htar]
        exact (devPct_threshold _ _ _ ht htar).mpr hpct
      refine List.mem_map.mpr ⟨(k, adjInfoFor assets src k tar), ?_, rfl⟩
      refine List.mem_filter.mpr ⟨?_, by simpa using h02⟩
      exact (mem_adjustment_iff subTargets assets src k _).mpr ⟨hliq, tar, hmem, rfl⟩
  · intro hk
    obtain ⟨⟨kp, ip⟩, hp, hfst⟩ := List.mem_map.mp hk
    have hkp : kp = "机动-现金" := hfst
    subst hkp
    obtain ⟨hpadj, _⟩ := List.mem_filter.mp hp
    exact ((mem_adjustment_iff subTargets assets src _ ip).mp hpadj).1 rfl

/-- Witness for C1: one cash holding of `100` in the liquidity bucket, a
bond subcategory targeted at 50% with nothing held — the bond key is
actionable (deviation −100%), the liquidity bucket is not listed even
though its own deviation is +100%. -/
theorem claim1_actionable_iff_witness :
    "债券-利率" ∈ (significant_adj [("债券-利率", 1/2), ("机动-现金", 1/2)]
      [("现金", ⟨"", "cash", 100, "机动-现金", ""⟩)] (fun _ => none)).map Prod.fst ∧
    "机动-现金" ∉ (significant_adj [("债券-利率", 1/2), ("机动-现金", 1/2)]
      [("现金", ⟨"", "cash", 100, "机动-现金", ""⟩)] (fun _ => none)).map Prod.fst := by
  have htot : total_value [("现金", ⟨"", "cash", 100, "机动-现金", ""⟩)]
      (fun _ => none) = 100 := by
    norm_num [total_value, current_values, current_value]
  have hsub : sub_summary [("现金", ⟨"", "cash", 100, "机动-现金", ""⟩)]
      (fun _ => none) "债券-利率" = 0 := by
    rw [sub_summary,
      show (List.filter (fun p => p.2.category == "债券-利率")
        ([("现金", ⟨"", "cash", 100, "机动-现金", ""⟩)] : Assets)) = [] from by decide]
    simp
  have h := claim1_actionable_iff [("债券-利率", 1/2), ("机动-现金", 1/2)]
    [("现金", ⟨"", "cash", 100, "机动-现金", ""⟩)] (fun _ => none) "债券-利率" (1/2)
    (by rw [htot]; norm_num) (by norm_num) (by simp) (by decide)
  refine ⟨h.1.mpr ⟨?_, by decide⟩, h.2⟩
  rw [htot, hsub, subDiffPct, if_pos (by norm_num), sub_diff]
  norm_num

/-! ## Claim C6 -/

theorem sum_zero_of_nonneg {l : List ℚ} (hnn : ∀ x ∈ l, 0 ≤ x) (hz : l.sum = 0) :
    ∀ x ∈ l, x = 0 := by
  induction l with
  | nil =>
    intro x hx
    cases hx
  | cons a rest ih =>
    have ha : 0 ≤ a := hnn a (by simp)
    have hrest : 0 ≤ rest.sum :=
      List.sum_nonneg (fun x hx => hnn x (by simp [hx]))
    have hsum : a + rest.sum = 0 := by simpa using hz
    intro x hx
    rcases List.mem_cons.mp hx with rfl | hx
    · linarith
    · exact ih (fun y hy => hnn y (by simp [hy])) (by linarith) x hx

theorem adjust_shares_zero (t : String) (q : ℚ) : adjust_shares t 0 q = 0 := by
  rw [adjust_shares]
  split_ifs <;> first | rfl | linarith

theorem suggestion_for_value_zero (catTotal dv : ℚ) (h : Holding)
    (hv : h.value = 0) : suggestion_for catTotal dv h = 0 := by
  rw [suggestion_for, hv]
  by_cases hs : 0 < h.shares
  · simp [hs, zero_div]
  · simp [hs, zero_div, adjust_shares_zero]

/-- Counterexample to claim C6 as stated: a subcategory holding one `fund`
position of market value `0` has zero category total, yet the advisor does
NOT emit the no-holdings advisory — it silently produces an empty
suggestion list instead. -/
theorem claim6_counterexample :
    ((([⟨"X", "fund", 1, 0⟩] : List Holding).map Holding.value).sum = 0) ∧
    category_advice [⟨"X", "fund", 1, 0⟩] 50 = CatAdvice.suggestions [] ∧
    category_advice [⟨"X", "fund", 1, 0⟩] 50 ≠ CatAdvice.noHoldings := by
  have hval : category_advice [⟨"X", "fund", 1, 0⟩] 50 = CatAdvice.suggestions [] := by
    norm_num [category_advice, suggestion_for, adjust_shares]
  refine ⟨by simp, hval, ?_⟩
  rw [hval]
  simp

/-- Claim C6 (amended): the no-holdings advisory fires iff the actionable
subcategory has no holdings at all; when holdings exist but their (nonneg)
values sum to zero, no advisory is shown and no per-holding quantity
suggestion is produced either. -/
theorem claim6_degenerate_category (hs : List Holding) (dv : ℚ)
    (hnn : ∀ h ∈ hs, 0 ≤ h.value)
    (hz : (hs.map Holding.value).sum = 0) :
    (category_advice hs dv = CatAdvice.noHoldings ↔ hs = []) ∧
    (hs ≠ [] → category_advice hs dv = CatAdvice.suggestions []) := by
  have hsug : hs ≠ [] → category_advice hs dv = CatAdvice.suggestions [] := by
    intro hne
    rw [category_advice, if_neg hne]
    congr 1
    rw [List.filter_eq_nil_iff]
    intro x hx
    obtain ⟨h, hh, rfl⟩ := List.mem_map.mp hx
    have hv0 : h.value = 0 := by
      refine sum_zero_of_nonneg ?_ hz h.value (List.mem_map.mpr ⟨h, hh, rfl⟩)
      intro x hx
      obtain ⟨h2, hh2, rfl⟩ := List.mem_map.mp hx
      exact hnn h2 hh2
    simp [suggestion_for_value_zero _ _ _ hv0]
  refine ⟨⟨?_, ?_⟩, hsug⟩
  · intro hno
    by_contra hne
    rw [hsug hne] at hno
    cases hno
  · intro h
    rw [category_advice, if_pos h]

/-- Witness for C6 (amended): one zero-quantity, zero-value holding — no
advisory, no suggestions. -/
theorem claim6_degenerate_category_witness :
    category_advice [⟨"Y", "etf", 0, 0⟩] 7 = CatAdvice.suggestions [] :=
  (claim6_degenerate_category [⟨"Y", "etf", 0, 0⟩] 7
    (by simp) (by simp)).2 (by simp)

end PortfolioChecker
